import Mathlib

/-! TinyLink: short-code validation, generation and the link registry.

A shallow embedding of `server.js`: the helpers `isValidCode` and
`generateCode`, and the route handlers for creating, reading, deleting and
resolving links, over a model of the `links` table.

JavaScript strings are embedded as Lean strings. A JavaScript string is a
sequence of UTF-16 code units and a Lean string a sequence of code points; the
two agree on every string made of ASCII characters, and a string holding any
other character is rejected by the code pattern whichever way it is counted.
-/

namespace TinyLink

/-! ## The regular expression of `isValidCode` -/

/-- One term of a pattern: the assertions `^` and `$` (no `m` flag, so they
hold at the start and at the end of the input only), or a character class
under a greedy bounded quantifier, `[...]{lo,hi}`. -/
inductive Term where
  | bol
  | eol
  | classRep (ranges : List (Char × Char)) (lo hi : Nat)

/-- Membership of a character in a class given by its ranges. -/
def inRanges (ranges : List (Char × Char)) (c : Char) : Bool :=
  ranges.any fun r => decide (r.1 ≤ c) && decide (c ≤ r.2)

/-- The matcher of `[...]{lo,hi}` with continuation `k`: greedy, it first
tries to consume one more character of the class and falls back to the
continuation once the lower bound is met. -/
def repMatch (ranges : List (Char × Char)) :
    Nat → Nat → (Nat → List Char → Bool) → Nat → List Char → Bool
  | 0, lo, k, pos, rest => lo == 0 && k pos rest
  | hi + 1, lo, k, pos, rest =>
    (match rest with
      | c :: cs => inRanges ranges c && repMatch ranges hi (lo - 1) k (pos + 1) cs
      | [] => false) || (lo == 0 && k pos rest)

/-- Matching a sequence of terms at position `pos`, `rest` being the input
from that position on. -/
def matchTerms : List Term → Nat → List Char → Bool
  | [] => fun _ _ => true
  | .bol :: ts => fun pos rest => pos == 0 && matchTerms ts pos rest
  | .eol :: ts => fun pos rest => rest.isEmpty && matchTerms ts pos rest
  | .classRep rs lo hi :: ts => fun pos rest => repMatch rs hi lo (matchTerms ts) pos rest

/-- The search loop of `RegExp.prototype.test` (no `g` or `y` flag): try a
match at every start position from `pos` up to the end of the input. -/
def searchFrom (ts : List Term) : Nat → List Char → Bool
  | pos, [] => matchTerms ts pos []
  | pos, c :: cs => matchTerms ts pos (c :: cs) || searchFrom ts (pos + 1) cs

/-- The method `regex.test(s)`. -/
def regexTest (ts : List Term) (s : String) : Bool :=
  searchFrom ts 0 s.toList

/-- The pattern `/^[A-Za-z0-9]{6,8}$/`. -/
def codePattern : List Term :=
  [.bol, .classRep [('A', 'Z'), ('a', 'z'), ('0', '9')] 6 8, .eol]

/-- The helper `isValidCode(code)`: `/^[A-Za-z0-9]{6,8}$/.test(code)`. -/
def isValidCode (code : String) : Bool :=
  regexTest codePattern code

/-- An ASCII letter or digit, as the specification words the alphabet. -/
def isAsciiAlnum (c : Char) : Prop :=
  ('A' ≤ c ∧ c ≤ 'Z') ∨ ('a' ≤ c ∧ c ≤ 'z') ∨ ('0' ≤ c ∧ c ≤ '9')

instance (c : Char) : Decidable (isAsciiAlnum c) := by
  unfold isAsciiAlnum; infer_instance

/-! ## `generateCode` -/

/-- The alphabet `chars` of `generateCode`. -/
def chars : String :=
  "ABCDEFGHIJKLMNOPQRSTUVWXYZabcdefghijklmnopqrstuvwxyz0123456789"

/-- The expression `code += s[i]`, as the text it appends: the character at
index `i`, or the text `undefined` when the index is out of range. -/
def charAt (s : String) (i : ℤ) : String :=
  if 0 ≤ i then
    match s.toList.get? i.toNat with
    | some c => String.singleton c
    | none => "undefined"
  else "undefined"

/-- The helper `generateCode()`. The random source is the sequence `random` of
the values that the successive calls of `Math.random()` return, `random i` in
iteration `i`; the product and `Math.floor` are taken exactly. -/
def generateCode (random : Nat → ℚ) : String :=
  (List.range 6).foldl
    (fun code i => code ++ charAt chars ⌊random i * (chars.length : ℚ)⌋) ""

/-! ## The `links` table -/

/-- The columns of a row of `links` other than its `id`. -/
structure Row where
  code : String
  target_url : String
  created_at : Nat
  total_clicks : Nat
  last_clicked_at : Option Nat
  deriving DecidableEq

/-- A row as a query returns it: the columns with the `id`. -/
structure Link extends Row where
  id : Nat
  deriving DecidableEq

/-- Modelled from the spec: the storage module `db.js` and the schema of
`links` are not part of the sources. The table has a generated unique `id`, a
unique `code`, `target_url`, `created_at` (creation time by default),
`total_clicks` (0 by default) and a nullable `last_clicked_at`. It is a list
of slots: slot `i` holds the row whose id is `i`, or nothing once that row is
deleted, so that ids are unique and never reused. A statement does not fail,
but for the insert of a code that is taken: of the `catch` branches of the
handlers (status 500) only that of the insert is modelled. -/
abbrev Store := List (Option Row)

/-- The live rows of the slots, numbered from `i`. -/
def rowsFrom : Nat → Store → List Link
  | _, [] => []
  | i, none :: rest => rowsFrom (i + 1) rest
  | i, some r :: rest => { toRow := r, id := i } :: rowsFrom (i + 1) rest

/-- The rows of the table, in id order (`SELECT * FROM links`). -/
def allLinks (db : Store) : List Link :=
  rowsFrom 0 db

/-- The statement `SELECT * FROM links WHERE code = $1` of the handlers
(`SELECT id ...` where only the number of rows is used). -/
def selectByCode (db : Store) (code : String) : List Link :=
  (allLinks db).filter fun l => decide (l.code = code)

/-- Modelled from the spec: the schema is not part of the sources. The row
that an insert of `code` and `target_url` creates, the other columns taking
their defaults: `created_at` the creation time, `total_clicks` 0,
`last_clicked_at` null. -/
def newRow (code url : String) (now : Nat) : Row :=
  { code := code, target_url := url, created_at := now, total_clicks := 0,
    last_clicked_at := none }

/-- Modelled from the spec: the schema is not part of the sources. The
statement `INSERT INTO links (code, target_url) VALUES ($1, $2) RETURNING *`;
the uniqueness constraint on `code` makes it fail when the code is taken. -/
def insertLink (db : Store) (code url : String) (now : Nat) : Except String (Link × Store) :=
  if (selectByCode db code).isEmpty then
    .ok ({ toRow := newRow code url now, id := db.length }, db ++ [some (newRow code url now)])
  else .error "duplicate key value violates unique constraint"

/-- The assignment `SET total_clicks = total_clicks + 1, last_clicked_at = NOW()`. -/
def bump (now : Nat) (r : Row) : Row :=
  { r with total_clicks := r.total_clicks + 1, last_clicked_at := some now }

/-- A link after the assignment of the `UPDATE`. -/
def bumpLink (now : Nat) (l : Link) : Link :=
  { toRow := bump now l.toRow, id := l.id }

/-- The statement `UPDATE links SET ... WHERE id = $1` of the redirect
handler, returning the number of rows it changed with the new table. -/
def updateClicks (db : Store) (id now : Nat) : Nat × Store :=
  (if (db.get? id).join.isSome then 1 else 0, db.modify (Option.map (bump now)) id)

/-- The statement `DELETE FROM links WHERE code = $1` of the delete handler,
returning the number of rows it deleted with the new table. -/
def deleteByCode (db : Store) (code : String) : Nat × Store :=
  ((selectByCode db code).length, db.map (Option.filter fun r => decide (r.code ≠ code)))

/-- No two stored links have the same code. -/
def codesUnique (db : Store) : Prop :=
  ((allLinks db).map fun l => l.code).Nodup

instance (db : Store) : Decidable (codesUnique db) := by
  unfold codesUnique; infer_instance

/-! ## Requests and responses -/

/-- What a handler sends. -/
inductive Body where
  | json_error (error : String)
  | json_link (link : Link)
  | text (s : String)
  | redirect (location : String)
  | empty
  deriving DecidableEq

/-- A response: its status and what is sent. -/
structure Response where
  status : Nat
  body : Body
  deriving DecidableEq

/-- The fields `url` and `code` of the body of a create request, each a
string or absent. -/
structure CreateBody where
  url : Option String
  code : Option String
  deriving DecidableEq

/-- Truthiness of a value that is a string or `undefined`. -/
def truthy : Option String → Bool
  | some s => s != ""
  | none => false

/-- The helper `isValidUrl(url)`: whether `new URL(url)` returns rather than
throws, which the platform decides (`urlParses`). -/
def isValidUrl (urlParses : String → Bool) (url : String) : Bool :=
  urlParses url

/-! ## The route handlers -/

/-- The `try` block of the handler of `POST /api/links`, entered with the
code to store: the existence check, the insert, and the `catch` of a failing
statement. -/
def tryInsert (db : Store) (code url : String) (now : Nat) : Response × Store :=
  if (selectByCode db code).length > 0 then
    (⟨409, .json_error "Code already exists"⟩, db)
  else
    match insertLink db code url now with
    | .ok (link, db') => (⟨201, .json_link link⟩, db')
    | .error _ => (⟨500, .json_error "Server error"⟩, db)

/-- The handler of `POST /api/links`. -/
def postApiLinks (urlParses : String → Bool) (random : Nat → ℚ) (now : Nat)
    (db : Store) (body : CreateBody) : Response × Store :=
  if !truthy body.url || !isValidUrl urlParses (body.url.getD "") then
    (⟨400, .json_error "Invalid URL"⟩, db)
  else if truthy body.code && !isValidCode (body.code.getD "") then
    (⟨400, .json_error "Code must be 6–8 letters/numbers"⟩, db)
  else
    let code := if !truthy body.code then generateCode random else body.code.getD ""
    tryInsert db code (body.url.getD "") now

/-- The handler of `GET /api/links/:code`. -/
def getApiLinksCode (db : Store) (code : String) : Response × Store :=
  match selectByCode db code with
  | [] => (⟨404, .json_error "Not found"⟩, db)
  | link :: _ => (⟨200, .json_link link⟩, db)

/-- The handler of `DELETE /api/links/:code`. -/
def deleteApiLinksCode (db : Store) (code : String) : Response × Store :=
  let result := deleteByCode db code
  if result.1 = 0 then (⟨404, .json_error "Not found"⟩, result.2)
  else (⟨204, .empty⟩, result.2)

/-- Where the handler of `GET /:code` stands after its lookup: it has
answered, or it holds the row it found and has the update still to issue. -/
inductive Lookup where
  | done (response : Response)
  | found (link : Link)
  deriving DecidableEq

/-- The handler of `GET /:code` up to and including its `SELECT`. -/
def getCodeLookup (db : Store) (code : String) : Lookup :=
  if ["api", "healthz", "code"].contains code then
    .done ⟨404, .text "Not found"⟩
  else
    match selectByCode db code with
    | [] => .done ⟨404, .text "Code not found"⟩
    | link :: _ => .found link

/-- The handler of `GET /:code` from its `UPDATE` on: the update by the id of
the row found, then the redirect. Returned are the response, the number of
rows the update changed (which the handler ignores) and the new table. -/
def getCodeUpdate (db : Store) (now : Nat) (link : Link) : Response × Nat × Store :=
  let result := updateClicks db link.id now
  (⟨302, .redirect link.target_url⟩, result.1, result.2)

/-- The resolve handler from a lookup result on, over the table `db` as it is
when the handler resumes. -/
def finishResolve (db : Store) (now : Nat) : Lookup → Response × Nat × Store
  | .done response => (response, 0, db)
  | .found link => getCodeUpdate db now link

/-- The handler of `GET /:code`, run without interruption: the lookup, and the
rest of the handler on the same table. -/
def getCode (db : Store) (now : Nat) (code : String) : Response × Store :=
  let r := finishResolve db now (getCodeLookup db code)
  (r.1, r.2.2)

/-! ## Sequences of requests -/

/-- A request with what the platform supplies while it is handled: the values
of `Math.random()` and the time of the database. -/
inductive Request where
  | create (body : CreateBody) (random : Nat → ℚ) (now : Nat)
  | resolve (code : String) (now : Nat)
  | remove (code : String)

/-- Handling one request. -/
def step (urlParses : String → Bool) (db : Store) : Request → Response × Store
  | .create body random now => postApiLinks urlParses random now db body
  | .resolve code now => getCode db now code
  | .remove code => deleteApiLinksCode db code

/-- Handling requests one at a time: the table they leave. -/
def run (urlParses : String → Bool) (db : Store) (reqs : List Request) : Store :=
  reqs.foldl (fun d r => (step urlParses d r).2) db

/-- Resolving the same code once per element of `times`, one request after
another: the responses and the table left. -/
def resolveMany (code : String) : Store → List Nat → List Response × Store
  | db, [] => ([], db)
  | db, now :: times =>
    let r := getCode db now code
    let rest := resolveMany code r.2 times
    (r.1 :: rest.1, rest.2)

/-! ## One resolve racing one remove

Each handler yields at its `await`s, and every statement is atomic in the
database; the resolve handler issues two statements and the remove handler
one, so the delete falls before the lookup, between lookup and update, or
after the update. -/

/-- Where the `DELETE` falls among the two statements of the resolve handler. -/
inductive Schedule where
  | removeFirst
  | removeBetween
  | removeLast
  deriving DecidableEq

/-- What a race leaves: the response of resolve, the number of rows whose
counter its update advanced, the response of remove and the table. -/
structure RaceOutcome where
  resolved : Response
  increments : Nat
  removed : Response
  final : Store
  deriving DecidableEq

/-- One `GET /:code` and one `DELETE /api/links/:code` for the same code,
interleaved as the schedule says. -/
def race (s : Schedule) (db : Store) (now : Nat) (code : String) : RaceOutcome :=
  match s with
  | .removeFirst =>
    let d := deleteApiLinksCode db code
    let r := finishResolve d.2 now (getCodeLookup d.2 code)
    ⟨r.1, r.2.1, d.1, r.2.2⟩
  | .removeBetween =>
    let l := getCodeLookup db code
    let d := deleteApiLinksCode db code
    let r := finishResolve d.2 now l
    ⟨r.1, r.2.1, d.1, r.2.2⟩
  | .removeLast =>
    let r := finishResolve db now (getCodeLookup db code)
    let d := deleteApiLinksCode r.2.2 code
    ⟨r.1, r.2.1, d.1, d.2⟩

/-- A URL oracle for the closed examples: it accepts `https://example.com`,
which `new URL` parses, and nothing else. -/
def exampleUrlParses (url : String) : Bool :=
  url == "https://example.com"

theorem inRanges_codeClass (c : Char) :
    inRanges [('A', 'Z'), ('a', 'z'), ('0', '9')] c = true ↔ isAsciiAlnum c := by
  simp [inRanges, isAsciiAlnum, List.any]

theorem repMatch_toEnd (rs : List (Char × Char)) (k : Nat → List Char → Bool)
    (hk : ∀ pos rest, k pos rest = rest.isEmpty) :
    ∀ (hi lo pos : Nat) (rest : List Char),
      repMatch rs hi lo k pos rest = true ↔
        lo ≤ rest.length ∧ rest.length ≤ hi ∧ ∀ c ∈ rest, inRanges rs c = true := by
  intro hi
  induction hi with
  | zero =>
    intro lo pos rest
    cases rest with
    | nil => simp [repMatch, hk]
    | cons c cs => simp [repMatch, hk]
  | succ hi ih =>
    intro lo pos rest
    cases rest with
    | nil => simp [repMatch, hk]
    | cons c cs =>
      simp only [repMatch, hk, List.isEmpty_cons, Bool.and_false, Bool.or_false, Bool.and_eq_true,
        ih, List.length_cons, List.mem_cons, forall_eq_or_imp]
      constructor
      · rintro ⟨hc, h1, h2, h3⟩
        exact ⟨by omega, by omega, hc, h3⟩
      · rintro ⟨h1, h2, hc, h3⟩
        exact ⟨hc, by omega, by omega, h3⟩

theorem matchTerms_codePattern (pos : Nat) (rest : List Char) :
    matchTerms codePattern pos rest =
      (pos == 0 && repMatch [('A', 'Z'), ('a', 'z'), ('0', '9')] 8 6
        (matchTerms [.eol]) pos rest) := rfl

theorem searchFrom_codePattern_pos (pos : Nat) (hpos : 0 < pos) (l : List Char) :
    searchFrom codePattern pos l = false := by
  induction l generalizing pos with
  | nil =>
    have : (pos == 0) = false := by simp; omega
    simp [searchFrom, matchTerms_codePattern, this]
  | cons c cs ih =>
    have : (pos == 0) = false := by simp; omega
    simp [searchFrom, matchTerms_codePattern, this, ih]

theorem isValidCode_eq_true_iff (s : String) :
    isValidCode s = true ↔
      (s.length = 6 ∨ s.length = 7 ∨ s.length = 8) ∧ ∀ c ∈ s.toList, isAsciiAlnum c := by
  have hrep := repMatch_toEnd [('A', 'Z'), ('a', 'z'), ('0', '9')] (matchTerms [.eol])
    (by intro pos rest; simp [matchTerms]) 8 6 0 s.toList
  have hm : isValidCode s = repMatch [('A', 'Z'), ('a', 'z'), ('0', '9')] 8 6
      (matchTerms [.eol]) 0 s.toList := by
    unfold isValidCode regexTest
    cases h : s.toList with
    | nil => simp [searchFrom, matchTerms_codePattern]
    | cons c cs =>
      simp [searchFrom, matchTerms_codePattern, searchFrom_codePattern_pos]
  rw [hm, hrep]
  simp only [inRanges_codeClass, String.length]
  constructor
  · rintro ⟨h1, h2, h3⟩
    refine ⟨?_, h3⟩
    show s.data.length = 6 ∨ _
    change 6 ≤ s.data.length at h1
    change s.data.length ≤ 8 at h2
    omega
  · rintro ⟨h1, h3⟩
    exact ⟨by change 6 ≤ s.data.length; omega, by change s.data.length ≤ 8; omega, h3⟩


theorem rowsFrom_append (a b : Store) :
    ∀ i, rowsFrom i (a ++ b) = rowsFrom i a ++ rowsFrom (i + a.length) b := by
  induction a with
  | nil => intro i; simp [rowsFrom]
  | cons o rest ih =>
    intro i
    cases o with
    | none => simp [rowsFrom, ih, Nat.add_assoc, Nat.add_comm 1]
    | some r => simp [rowsFrom, ih, Nat.add_assoc, Nat.add_comm 1]

theorem mem_rowsFrom (db : Store) :
    ∀ (i : Nat) (l : Link), l ∈ rowsFrom i db ↔ i ≤ l.id ∧ db.get? (l.id - i) = some (some l.toRow) := by
  induction db with
  | nil => intro i l; simp [rowsFrom]
  | cons o rest ih =>
    intro i l
    have hstep : ∀ (hlt : i < l.id), (o :: rest).get? (l.id - i) = rest.get? (l.id - (i + 1)) := by
      intro hlt
      have : l.id - i = (l.id - (i + 1)) + 1 := by omega
      rw [this, List.get?_cons_succ]
    cases o with
    | none =>
      simp only [rowsFrom, ih]
      constructor
      · rintro ⟨h1, h2⟩
        exact ⟨by omega, by rw [hstep (by omega)]; exact h2⟩
      · rintro ⟨h1, h2⟩
        rcases Nat.eq_or_lt_of_le h1 with h | h
        · rw [← h] at h2; simp at h2
        · exact ⟨h, by rw [← hstep h]; exact h2⟩
    | some r =>
      simp only [rowsFrom, List.mem_cons, ih]
      constructor
      · rintro (h | ⟨h1, h2⟩)
        · subst h; simp
        · exact ⟨by omega, by rw [hstep (by omega)]; exact h2⟩
      · rintro ⟨h1, h2⟩
        rcases Nat.eq_or_lt_of_le h1 with h | h
        · left
          rw [← h] at h2
          simp at h2
          cases l
          simp_all
        · right
          exact ⟨h, by rw [← hstep h]; exact h2⟩

theorem mem_allLinks (db : Store) (l : Link) :
    l ∈ allLinks db ↔ db.get? l.id = some (some l.toRow) := by
  simp [allLinks, mem_rowsFrom]

theorem mem_selectByCode (db : Store) (code : String) (l : Link) :
    l ∈ selectByCode db code ↔ l ∈ allLinks db ∧ l.code = code := by
  simp [selectByCode]

theorem selectByCode_eq_nil (db : Store) (code : String) :
    selectByCode db code = [] ↔ code ∉ (allLinks db).map (fun l => l.code) := by
  simp only [selectByCode, List.filter_eq_nil_iff, List.mem_map, not_exists, not_and]
  constructor
  · intro h l hl hc; exact h l hl (by simpa using hc)
  · intro h l hl hc; exact h l hl (by simpa using hc)

theorem head_selectByCode (db : Store) (code : String) (l : Link)
    (h : (selectByCode db code).head? = some l) : l ∈ allLinks db ∧ l.code = code :=
  (mem_selectByCode db code l).mp (List.mem_of_mem_head? h)

theorem code_injOn (db : Store) (hu : codesUnique db) (a b : Link)
    (ha : a ∈ allLinks db) (hb : b ∈ allLinks db) (h : a.code = b.code) : a = b :=
  List.inj_on_of_nodup_map hu ha hb h

theorem selectByCode_unique (db : Store) (hu : codesUnique db) (l : Link)
    (hl : l ∈ allLinks db) : selectByCode db l.code = [l] := by
  unfold selectByCode
  have hnd : (allLinks db).Nodup := List.Nodup.of_map _ hu
  have : (allLinks db).filter (fun m => decide (m.code = l.code)) =
      (allLinks db).filter (fun m => m == l) := by
    apply List.filter_congr
    intro m hm
    by_cases hc : m.code = l.code
    · have := code_injOn db hu m l hm hl hc
      simp [this]
    · have : m ≠ l := fun h => hc (by rw [h])
      simp [hc, this]
  rw [this]
  rw [List.filter_beq, List.count_eq_one_of_mem hnd hl]
  rfl

/-! ## The table: what the statements change -/

theorem allLinks_append_some (db : Store) (r : Row) :
    allLinks (db ++ [some r]) = allLinks db ++ [{ toRow := r, id := db.length }] := by
  simp [allLinks, rowsFrom_append, rowsFrom]

theorem selectByCode_append_some (db : Store) (r : Row) (code : String) :
    selectByCode (db ++ [some r]) code =
      selectByCode db code ++ (if r.code = code then [{ toRow := r, id := db.length }] else []) := by
  unfold selectByCode
  rw [allLinks_append_some, List.filter_append]
  by_cases h : r.code = code <;> simp [List.filter, h]

theorem tryInsert_present (db : Store) (code url : String) (now : Nat)
    (h : selectByCode db code ≠ []) :
    tryInsert db code url now = (⟨409, .json_error "Code already exists"⟩, db) := by
  unfold tryInsert
  rw [if_pos (List.length_pos.mpr h)]

theorem tryInsert_absent (db : Store) (code url : String) (now : Nat)
    (h : selectByCode db code = []) :
    tryInsert db code url now =
      (⟨201, .json_link { toRow := newRow code url now, id := db.length }⟩,
        db ++ [some (newRow code url now)]) := by
  unfold tryInsert insertLink
  simp [h]

theorem codesUnique_append_some (db : Store) (r : Row) (hu : codesUnique db)
    (h : selectByCode db r.code = []) : codesUnique (db ++ [some r]) := by
  unfold codesUnique at *
  rw [allLinks_append_some, List.map_append, List.nodup_append]
  refine ⟨hu, by simp, ?_⟩
  have := (selectByCode_eq_nil db r.code).mp h
  intro a ha hb
  simp at hb
  subst hb
  exact this ha

theorem rowsFrom_id_ge (db : Store) (i : Nat) (l : Link) (h : l ∈ rowsFrom i db) : i ≤ l.id :=
  ((mem_rowsFrom db i l).mp h).1

theorem rowsFrom_modify (now : Nat) (db : Store) :
    ∀ (i n : Nat), rowsFrom i (db.modify (Option.map (bump now)) n) =
      (rowsFrom i db).map (fun x => if x.id = i + n then bumpLink now x else x) := by
  induction db with
  | nil => intro i n; simp [rowsFrom]
  | cons o rest ih =>
    intro i n
    cases n with
    | zero =>
      have htail : (rowsFrom (i + 1) rest).map
          (fun x => if x.id = i + 0 then bumpLink now x else x) = rowsFrom (i + 1) rest := by
        conv_rhs => rw [← List.map_id (rowsFrom (i + 1) rest)]
        apply List.map_congr_left
        intro x hx
        have := rowsFrom_id_ge rest (i + 1) x hx
        have hne : ¬ x.id = i := by omega
        simp [hne]
      cases o with
      | none => simpa [rowsFrom] using htail.symm
      | some r =>
        simp only [List.modify_zero_cons, Option.map_some', rowsFrom, List.map_cons, htail]
        simp [bumpLink]
    | succ n =>
      have hidx : i + (n + 1) = i + 1 + n := by omega
      have hmod : (o :: rest).modify (Option.map (bump now)) (n + 1) =
          o :: rest.modify (Option.map (bump now)) n := List.modify_succ_cons _ _ _ _
      rw [hmod, hidx]
      cases o with
      | none => simp only [rowsFrom, ih]
      | some r =>
        simp only [rowsFrom, List.map_cons, ih]
        have hne : ¬ i = i + 1 + n := by omega
        simp [hne]

theorem allLinks_updateClicks (db : Store) (id now : Nat) :
    allLinks (updateClicks db id now).2 =
      (allLinks db).map (fun x => if x.id = id then bumpLink now x else x) := by
  simpa [allLinks, updateClicks] using rowsFrom_modify now db 0 id

theorem selectByCode_updateClicks (db : Store) (id now : Nat) (code : String) :
    selectByCode (updateClicks db id now).2 code =
      (selectByCode db code).map (fun x => if x.id = id then bumpLink now x else x) := by
  unfold selectByCode
  rw [allLinks_updateClicks, List.filter_map]
  congr 1
  apply List.filter_congr
  intro x _
  by_cases h : x.id = id <;> simp [h, bumpLink, bump]

theorem codesUnique_updateClicks (db : Store) (id now : Nat) (hu : codesUnique db) :
    codesUnique (updateClicks db id now).2 := by
  unfold codesUnique at *
  rw [allLinks_updateClicks, List.map_map]
  have : ((fun l : Link => l.code) ∘ fun x => if x.id = id then bumpLink now x else x) =
      fun l : Link => l.code := by
    funext x
    by_cases h : x.id = id <;> simp [h, bumpLink, bump]
  rw [this]
  exact hu

theorem rowsFrom_filter (p : Row → Bool) (db : Store) :
    ∀ i, rowsFrom i (db.map (Option.filter p)) = (rowsFrom i db).filter (fun l => p l.toRow) := by
  induction db with
  | nil => intro i; rfl
  | cons o rest ih =>
    intro i
    cases o with
    | none => simp [rowsFrom, ih, Option.filter]
    | some r =>
      by_cases h : p r = true
      · simp [rowsFrom, ih, Option.filter, h]
      · simp [rowsFrom, ih, Option.filter, h]

theorem allLinks_deleteByCode (db : Store) (code : String) :
    allLinks (deleteByCode db code).2 = (allLinks db).filter (fun l => decide (l.code ≠ code)) := by
  simpa [allLinks, deleteByCode] using rowsFrom_filter (fun r => decide (r.code ≠ code)) db 0

theorem selectByCode_deleteByCode (db : Store) (code : String) :
    selectByCode (deleteByCode db code).2 code = [] := by
  unfold selectByCode
  rw [allLinks_deleteByCode, List.filter_filter]
  simp

theorem codesUnique_deleteByCode (db : Store) (code : String) (hu : codesUnique db) :
    codesUnique (deleteByCode db code).2 := by
  unfold codesUnique at *
  rw [allLinks_deleteByCode]
  have : ((allLinks db).filter (fun l => decide (l.code ≠ code))).map (fun l => l.code) =
      ((allLinks db).map (fun l => l.code)).filter (fun c => decide (c ≠ code)) := by
    rw [List.filter_map]; rfl
  rw [this]
  exact hu.filter _

/-! ## The handlers -/

theorem isValidCode_ne_empty (code : String) (h : isValidCode code = true) : code ≠ "" := by
  rintro rfl
  exact absurd h (by decide)

theorem postApiLinks_explicit (urlParses : String → Bool) (random : Nat → ℚ) (now : Nat)
    (db : Store) (url code : String) (hurl : url ≠ "") (hparse : urlParses url = true)
    (hcode : isValidCode code = true) :
    postApiLinks urlParses random now db ⟨some url, some code⟩ = tryInsert db code url now := by
  have hne := isValidCode_ne_empty code hcode
  simp [postApiLinks, truthy, isValidUrl, hurl, hparse, hcode, hne]

theorem postApiLinks_emptyCode (urlParses : String → Bool) (random : Nat → ℚ) (now : Nat)
    (db : Store) (url : String) (hurl : url ≠ "") (hparse : urlParses url = true) :
    postApiLinks urlParses random now db ⟨some url, some ""⟩ =
      tryInsert db (generateCode random) url now := by
  simp [postApiLinks, truthy, isValidUrl, hurl, hparse]

theorem tryInsert_store (db : Store) (code url : String) (now : Nat) :
    (tryInsert db code url now).2 = db ∨
      ∃ r : Row, (tryInsert db code url now).2 = db ++ [some r] ∧
        selectByCode db r.code = [] := by
  by_cases h : selectByCode db code = []
  · right
    exact ⟨newRow code url now, by rw [tryInsert_absent db code url now h], h⟩
  · left
    rw [tryInsert_present db code url now h]

theorem postApiLinks_store (urlParses : String → Bool) (random : Nat → ℚ) (now : Nat)
    (db : Store) (body : CreateBody) :
    (postApiLinks urlParses random now db body).2 = db ∨
      ∃ r : Row, (postApiLinks urlParses random now db body).2 = db ++ [some r] ∧
        selectByCode db r.code = [] := by
  unfold postApiLinks
  split_ifs with h1 h2 h3
  · exact Or.inl rfl
  · exact Or.inl rfl
  · exact tryInsert_store db (generateCode random) (body.url.getD "") now
  · exact tryInsert_store db (body.code.getD "") (body.url.getD "") now

theorem codesUnique_postApiLinks (urlParses : String → Bool) (random : Nat → ℚ) (now : Nat)
    (db : Store) (body : CreateBody) (hu : codesUnique db) :
    codesUnique (postApiLinks urlParses random now db body).2 := by
  rcases postApiLinks_store urlParses random now db body with h | ⟨r, h, hr⟩
  · rw [h]; exact hu
  · rw [h]; exact codesUnique_append_some db r hu hr

theorem getCode_store (db : Store) (now : Nat) (code : String) :
    (getCode db now code).2 = db ∨
      ∃ id, (getCode db now code).2 = (updateClicks db id now).2 := by
  unfold getCode
  cases getCodeLookup db code with
  | done r => exact Or.inl rfl
  | found link => exact Or.inr ⟨link.id, rfl⟩

theorem codesUnique_getCode (db : Store) (now : Nat) (code : String) (hu : codesUnique db) :
    codesUnique (getCode db now code).2 := by
  rcases getCode_store db now code with h | ⟨id, h⟩
  · rw [h]; exact hu
  · rw [h]; exact codesUnique_updateClicks db id now hu

theorem deleteApiLinksCode_store (db : Store) (code : String) :
    (deleteApiLinksCode db code).2 = (deleteByCode db code).2 := by
  unfold deleteApiLinksCode
  dsimp only
  split_ifs <;> rfl

theorem codesUnique_step (urlParses : String → Bool) (db : Store) (req : Request)
    (hu : codesUnique db) : codesUnique (step urlParses db req).2 := by
  cases req with
  | create body random now => exact codesUnique_postApiLinks urlParses random now db body hu
  | resolve code now => exact codesUnique_getCode db now code hu
  | remove code =>
    show codesUnique (deleteApiLinksCode db code).2
    rw [deleteApiLinksCode_store]
    exact codesUnique_deleteByCode db code hu

theorem codesUnique_run (urlParses : String → Bool) (reqs : List Request) :
    ∀ db : Store, codesUnique db → codesUnique (run urlParses db reqs) := by
  induction reqs with
  | nil => intro db hu; exact hu
  | cons req reqs ih =>
    intro db hu
    exact ih _ (codesUnique_step urlParses db req hu)

theorem generateCode_zero : generateCode (fun _ => 0) = "AAAAAA" := by
  have h : charAt chars ⌊(0 : ℚ) * (chars.length : ℚ)⌋ = "A" := by
    have : ⌊(0 : ℚ) * (chars.length : ℚ)⌋ = 0 := by simp
    rw [this]
    decide
  unfold generateCode
  simp only [h]
  decide

theorem getCodeLookup_found (db : Store) (code : String) (l : Link)
    (hres : code ∉ ["api", "healthz", "code"])
    (h : (selectByCode db code).head? = some l) : getCodeLookup db code = .found l := by
  unfold getCodeLookup
  have hc : ["api", "healthz", "code"].contains code = false := by
    simpa using hres
  rw [hc]
  cases hs : selectByCode db code with
  | nil => rw [hs] at h; simp at h
  | cons a rest =>
    rw [hs] at h
    simp at h
    simp [h]

theorem getCode_found (db : Store) (now : Nat) (code : String) (l : Link)
    (hres : code ∉ ["api", "healthz", "code"])
    (h : (selectByCode db code).head? = some l) :
    getCode db now code = (⟨302, .redirect l.target_url⟩, (updateClicks db l.id now).2) := by
  unfold getCode
  rw [getCodeLookup_found db code l hres h]
  rfl

theorem head_selectByCode_updateClicks (db : Store) (now : Nat) (code : String) (l : Link)
    (h : (selectByCode db code).head? = some l) :
    (selectByCode (updateClicks db l.id now).2 code).head? = some (bumpLink now l) := by
  rw [selectByCode_updateClicks, List.head?_map, h]
  simp

theorem head_selectByCode_of_unique (db : Store) (hu : codesUnique db) (l : Link)
    (hl : l ∈ allLinks db) : (selectByCode db l.code).head? = some l := by
  rw [selectByCode_unique db hu l hl]
  rfl

theorem bumpLink_mem (db : Store) (now : Nat) (l : Link) (hl : l ∈ allLinks db) :
    bumpLink now l ∈ allLinks (updateClicks db l.id now).2 := by
  rw [allLinks_updateClicks]
  exact List.mem_map.mpr ⟨l, hl, by simp⟩

theorem mem_allLinks_updateClicks_of_ne (db : Store) (id now : Nat) (m : Link)
    (hm : m.id ≠ id) : m ∈ allLinks (updateClicks db id now).2 ↔ m ∈ allLinks db := by
  rw [allLinks_updateClicks, List.mem_map]
  constructor
  · rintro ⟨x, hx, hxm⟩
    by_cases hid : x.id = id
    · rw [if_pos hid] at hxm
      exact absurd (by rw [← hxm]; exact hid) hm
    · rw [if_neg hid] at hxm
      rw [← hxm]; exact hx
  · intro h
    exact ⟨m, h, by rw [if_neg hm]⟩

theorem updateClicks_count_of_mem (db : Store) (now : Nat) (l : Link) (hl : l ∈ allLinks db) :
    (updateClicks db l.id now).1 = 1 := by
  have := (mem_allLinks db l).mp hl
  rw [List.get?_eq_getElem?] at this
  simp [updateClicks, this]

theorem updateClicks_count_deleted (db : Store) (now : Nat) (code : String) (l : Link)
    (hl : l ∈ allLinks db) (hc : l.code = code) :
    (updateClicks (deleteByCode db code).2 l.id now).1 = 0 := by
  have := (mem_allLinks db l).mp hl
  rw [List.get?_eq_getElem?] at this
  simp [updateClicks, deleteByCode, this, Option.filter, hc]

theorem deleteApiLinksCode_present (db : Store) (code : String)
    (h : selectByCode db code ≠ []) :
    deleteApiLinksCode db code = (⟨204, .empty⟩, (deleteByCode db code).2) := by
  unfold deleteApiLinksCode
  have : (deleteByCode db code).1 ≠ 0 := by
    simpa [deleteByCode] using h
  simp [this]

theorem getCodeLookup_deleted (db : Store) (code : String)
    (hres : code ∉ ["api", "healthz", "code"]) :
    getCodeLookup (deleteByCode db code).2 code = .done ⟨404, .text "Code not found"⟩ := by
  unfold getCodeLookup
  have hc : ["api", "healthz", "code"].contains code = false := by
    simpa using hres
  rw [hc, selectByCode_deleteByCode]
  rfl

theorem resolveMany_spec (code : String) (hres : code ∉ ["api", "healthz", "code"])
    (times : List Nat) :
    ∀ (db : Store) (l : Link), codesUnique db → l ∈ allLinks db → l.code = code →
      (resolveMany code db times).1 =
        List.replicate times.length ⟨302, .redirect l.target_url⟩ ∧
      (∃ l' ∈ allLinks (resolveMany code db times).2,
        l'.id = l.id ∧ l'.code = l.code ∧ l'.target_url = l.target_url ∧
        l'.created_at = l.created_at ∧ l'.total_clicks = l.total_clicks + times.length) ∧
      (∀ m : Link, m.id ≠ l.id →
        (m ∈ allLinks (resolveMany code db times).2 ↔ m ∈ allLinks db)) := by
  induction times with
  | nil =>
    intro db l _ hl _
    exact ⟨rfl, ⟨l, hl, rfl, rfl, rfl, rfl, rfl⟩, fun m _ => Iff.rfl⟩
  | cons now times ih =>
    intro db l hu hl hc
    have hhead : (selectByCode db code).head? = some l := by
      rw [← hc]; exact head_selectByCode_of_unique db hu l hl
    have hget := getCode_found db now code l hres hhead
    obtain ⟨h1, ⟨l', hl', hid, hcode, hurl, hcreated, hclicks⟩, h3⟩ :=
      ih (updateClicks db l.id now).2 (bumpLink now l)
        (codesUnique_updateClicks db l.id now hu) (bumpLink_mem db now l hl) hc
    simp only [resolveMany, hget, List.length_cons, List.replicate_succ]
    refine ⟨by rw [h1]; rfl, ⟨l', hl', hid, hcode, hurl, hcreated, ?_⟩, ?_⟩
    · rw [hclicks]
      show l.total_clicks + 1 + times.length = l.total_clicks + (times.length + 1)
      omega
    · intro m hm
      rw [h3 m hm]
      exact mem_allLinks_updateClicks_of_ne db l.id now m hm

/-! ## The code validator and generator -/

/-- C1: `isValidCode s` is true exactly when `s` has length 6, 7 or 8 and
every character of `s` is an ASCII letter or digit; it is false for the empty
string, for a string shorter than 6 or longer than 8, and for a string holding
a character outside the alphabet. The function is total: it never throws. -/
theorem isValidCode_spec (s : String) :
    (isValidCode s = true ↔
      (s.length = 6 ∨ s.length = 7 ∨ s.length = 8) ∧ ∀ c ∈ s.toList, isAsciiAlnum c) ∧
    isValidCode "" = false ∧
    (s.length < 6 → isValidCode s = false) ∧
    (8 < s.length → isValidCode s = false) ∧
    ((∃ c ∈ s.toList, ¬ isAsciiAlnum c) → isValidCode s = false) := by
  have hiff := isValidCode_eq_true_iff s
  refine ⟨hiff, by decide, ?_, ?_, ?_⟩
  · intro h
    cases hv : isValidCode s with
    | false => rfl
    | true => have := (hiff.mp hv).1; omega
  · intro h
    cases hv : isValidCode s with
    | false => rfl
    | true => have := (hiff.mp hv).1; omega
  · rintro ⟨c, hc, hn⟩
    cases hv : isValidCode s with
    | false => rfl
    | true => exact absurd ((hiff.mp hv).2 c hc) hn

/-- Witness of C1 at the codes `abc123` (accepted) and `abc-12` (rejected for
its hyphen). -/
theorem isValidCode_spec_witness :
    isValidCode "abc123" = true ∧ isValidCode "abc-12" = false :=
  ⟨(isValidCode_spec "abc123").1.mpr ⟨by decide, by decide⟩,
    (isValidCode_spec "abc-12").2.2.2.2 (Exists.intro '-' ⟨by decide, by decide⟩)⟩

/-- C3, as the code has it: for every non-empty `code` that does not match
`[A-Za-z0-9]{6,8}` (its length is not 6, 7 or 8, or one of its characters is
no ASCII letter or digit) and every `url` that is non-empty and parses, create
answers 400 with `Code must be 6–8 letters/numbers` and leaves the table as
it was. -/
theorem create_invalidCode (urlParses : String → Bool) (random : Nat → ℚ) (now : Nat)
    (db : Store) (url code : String) (hurl : url ≠ "") (hparse : urlParses url = true)
    (hne : code ≠ "")
    (hcode : ¬ ((code.length = 6 ∨ code.length = 7 ∨ code.length = 8) ∧
      ∀ c ∈ code.toList, isAsciiAlnum c)) :
    postApiLinks urlParses random now db ⟨some url, some code⟩ =
      (⟨400, .json_error "Code must be 6–8 letters/numbers"⟩, db) := by
  have hfalse : isValidCode code = false := by
    cases hv : isValidCode code with
    | false => rfl
    | true => exact absurd ((isValidCode_eq_true_iff code).mp hv) hcode
  simp [postApiLinks, truthy, isValidUrl, hurl, hparse, hne, hfalse]

/-- Witness of C3 (amended) at the code `abc` and the URL `https://example.com`. -/
theorem create_invalidCode_witness :
    postApiLinks exampleUrlParses (fun _ => 0) 0 []
        ⟨some "https://example.com", some "abc"⟩ =
      (⟨400, .json_error "Code must be 6–8 letters/numbers"⟩, []) :=
  create_invalidCode exampleUrlParses (fun _ => 0) 0 [] "https://example.com" "abc"
    (by decide) (by decide) (by decide) (by decide)

/-- C3 fails as stated, twice. With the code `abc`, which the pattern rejects,
and the URL `not-a-url`, create answers `Invalid URL`: the URL is checked
first. With the empty code, which the pattern rejects too, and a valid URL,
create takes the code as omitted, generates one and answers 201. -/
theorem create_invalidCode_counterexample :
    (isValidCode "abc" = false ∧
      postApiLinks exampleUrlParses (fun _ => 0) 0 [] ⟨some "not-a-url", some "abc"⟩ =
        (⟨400, .json_error "Invalid URL"⟩, [])) ∧
    (isValidCode "" = false ∧
      postApiLinks exampleUrlParses (fun _ => 0) 0 [] ⟨some "https://example.com", some ""⟩ =
        (⟨201, .json_link { toRow := newRow "AAAAAA" "https://example.com" 0, id := 0 }⟩,
          [some (newRow "AAAAAA" "https://example.com" 0)])) := by
  refine ⟨⟨by decide, by decide⟩, by decide, ?_⟩
  rw [postApiLinks_emptyCode exampleUrlParses (fun _ => 0) 0 [] "https://example.com"
    (by decide) (by decide), generateCode_zero]
  decide

/-- C5: every table reached from the empty one by create, resolve and remove
requests handled one at a time has no two links with the same code; create
leaves the table as it was or appends one row whose code no stored link had,
and resolve and remove keep the codes of any table free of duplicates. -/
theorem codes_unique_reachable (urlParses : String → Bool) :
    (∀ reqs : List Request, codesUnique (run urlParses [] reqs)) ∧
    (∀ (random : Nat → ℚ) (now : Nat) (db : Store) (body : CreateBody),
      (postApiLinks urlParses random now db body).2 = db ∨
        ∃ r : Row, (postApiLinks urlParses random now db body).2 = db ++ [some r] ∧
          selectByCode db r.code = []) ∧
    (∀ (db : Store) (now : Nat) (code : String),
      codesUnique db → codesUnique (getCode db now code).2) ∧
    (∀ (db : Store) (code : String),
      codesUnique db → codesUnique (deleteApiLinksCode db code).2) := by
  refine ⟨fun reqs => codesUnique_run urlParses reqs [] (by decide),
    fun random now db body => postApiLinks_store urlParses random now db body,
    fun db now code hu => codesUnique_getCode db now code hu, ?_⟩
  intro db code hu
  rw [deleteApiLinksCode_store]
  exact codesUnique_deleteByCode db code hu

/-- Witness of C5 at a create, a resolve and a remove from the empty table. -/
theorem codes_unique_reachable_witness :
    codesUnique (run exampleUrlParses []
      [.create ⟨some "https://example.com", some "abc123"⟩ (fun _ => 0) 1,
        .resolve "abc123" 2, .remove "abc123"]) :=
  (codes_unique_reachable exampleUrlParses).1
    [.create ⟨some "https://example.com", some "abc123"⟩ (fun _ => 0) 1,
      .resolve "abc123" 2, .remove "abc123"]

/-! ## Resolving a code -/

/-- C6, as the code has it: for every table and every code other than the
path words `api`, `healthz` and `code`, when `l` is the link that the lookup
by that code returns, resolve answers with the redirect (302) to the
`target_url` of `l`, and afterwards the lookup by that code returns `l` with
`total_clicks` one higher and `last_clicked_at` set to the current time, its
other columns as they were. -/
theorem resolve_found (db : Store) (now : Nat) (code : String) (l : Link)
    (hres : code ∉ ["api", "healthz", "code"])
    (h : (selectByCode db code).head? = some l) :
    (getCode db now code).1 = ⟨302, .redirect l.target_url⟩ ∧
    (selectByCode (getCode db now code).2 code).head? =
      some { l with total_clicks := l.total_clicks + 1, last_clicked_at := some now } := by
  rw [getCode_found db now code l hres h]
  exact ⟨rfl, head_selectByCode_updateClicks db now code l h⟩

/-- Witness of C6 (amended) at a table holding one link, with the code
`abcdef`. -/
theorem resolve_found_witness :
    (getCode [some (newRow "abcdef" "https://example.com" 0)] 5 "abcdef").1 =
      ⟨302, .redirect "https://example.com"⟩ ∧
    (selectByCode (getCode [some (newRow "abcdef" "https://example.com" 0)] 5 "abcdef").2
        "abcdef").head? =
      some { toRow := { newRow "abcdef" "https://example.com" 0 with
                        total_clicks := 1, last_clicked_at := some 5 }, id := 0 } :=
  resolve_found [some (newRow "abcdef" "https://example.com" 0)] 5 "abcdef"
    { toRow := newRow "abcdef" "https://example.com" 0, id := 0 } (by decide) (by decide)

/-- C6 fails as stated at the code `healthz`: `isValidCode` accepts it and
create stores a link under it, yet resolve answers 404 `Not found` for it
before any lookup, redirects nowhere and leaves the counter as it was. -/
theorem resolve_found_counterexample :
    isValidCode "healthz" = true ∧
    postApiLinks exampleUrlParses (fun _ => 0) 0 []
        ⟨some "https://example.com", some "healthz"⟩ =
      (⟨201, .json_link { toRow := newRow "healthz" "https://example.com" 0, id := 0 }⟩,
        [some (newRow "healthz" "https://example.com" 0)]) ∧
    selectByCode [some (newRow "healthz" "https://example.com" 0)] "healthz" =
      [{ toRow := newRow "healthz" "https://example.com" 0, id := 0 }] ∧
    getCode [some (newRow "healthz" "https://example.com" 0)] 1 "healthz" =
      (⟨404, .text "Not found"⟩, [some (newRow "healthz" "https://example.com" 0)]) := by
  refine ⟨by decide, ?_, by decide, by decide⟩
  rw [postApiLinks_explicit exampleUrlParses (fun _ => 0) 0 [] "https://example.com" "healthz"
    (by decide) (by decide) (by decide)]
  decide

/-- C7: for every table whose codes are unique, every link `l` of it whose
code is none of the path words `api`, `healthz` and `code`, and every number
of resolve requests for that code handled one after another (one per element
of `times`): every request answers with the redirect to the `target_url` of
`l`; the link with the id of `l` then has `total_clicks` equal to the initial
value plus the number of requests, and its `code`, `target_url` and
`created_at` as before; every link with another id is in the table afterwards
exactly when it was before. -/
theorem resolve_many (db : Store) (code : String) (l : Link) (times : List Nat)
    (hu : codesUnique db) (hl : l ∈ allLinks db) (hc : l.code = code)
    (hres : code ∉ ["api", "healthz", "code"]) :
    (resolveMany code db times).1 =
      List.replicate times.length ⟨302, .redirect l.target_url⟩ ∧
    (∃ l' ∈ allLinks (resolveMany code db times).2,
      l'.id = l.id ∧ l'.code = l.code ∧ l'.target_url = l.target_url ∧
      l'.created_at = l.created_at ∧ l'.total_clicks = l.total_clicks + times.length) ∧
    (∀ m : Link, m.id ≠ l.id →
      (m ∈ allLinks (resolveMany code db times).2 ↔ m ∈ allLinks db)) :=
  resolveMany_spec code hres times db l hu hl hc

/-- Witness of C7 at a table of two links and three requests for the second. -/
theorem resolve_many_witness :
    (resolveMany "abcdef"
        [some (newRow "ABC1234" "https://example.com" 0),
          some (newRow "abcdef" "https://example.com/a" 1)] [5, 6, 7]).1 =
      List.replicate [5, 6, 7].length ⟨302, .redirect "https://example.com/a"⟩ :=
  (resolve_many
    [some (newRow "ABC1234" "https://example.com" 0),
      some (newRow "abcdef" "https://example.com/a" 1)]
    "abcdef" { toRow := newRow "abcdef" "https://example.com/a" 1, id := 1 } [5, 6, 7]
    (by decide) (by decide) (by decide) (by decide)).1

/-! ## Creating under an explicit code -/

/-- C8: for every table, every two valid URLs and every code that
`isValidCode` accepts, of two create requests in a row with that code: when a
link with the code is present, create answers 409 `Code already exists` and
leaves the table as it was; the second request always does so; the two never
both answer 201; and when the first stored a link, the lookup by the code
after the second still returns that link, with the URL of the first. -/
theorem create_twice (urlParses : String → Bool) (random₁ random₂ : Nat → ℚ)
    (now₁ now₂ : Nat) (db : Store) (url₁ url₂ code : String)
    (hurl₁ : url₁ ≠ "") (hparse₁ : urlParses url₁ = true)
    (hurl₂ : url₂ ≠ "") (hparse₂ : urlParses url₂ = true)
    (hcode : isValidCode code = true) :
    (selectByCode db code ≠ [] →
      postApiLinks urlParses random₁ now₁ db ⟨some url₁, some code⟩ =
        (⟨409, .json_error "Code already exists"⟩, db)) ∧
    postApiLinks urlParses random₂ now₂
        (postApiLinks urlParses random₁ now₁ db ⟨some url₁, some code⟩).2
        ⟨some url₂, some code⟩ =
      (⟨409, .json_error "Code already exists"⟩,
        (postApiLinks urlParses random₁ now₁ db ⟨some url₁, some code⟩).2) ∧
    ¬ ((postApiLinks urlParses random₁ now₁ db ⟨some url₁, some code⟩).1.status = 201 ∧
        (postApiLinks urlParses random₂ now₂
          (postApiLinks urlParses random₁ now₁ db ⟨some url₁, some code⟩).2
          ⟨some url₂, some code⟩).1.status = 201) ∧
    (selectByCode db code = [] →
      (postApiLinks urlParses random₁ now₁ db ⟨some url₁, some code⟩).1 =
        ⟨201, .json_link { toRow := newRow code url₁ now₁, id := db.length }⟩ ∧
      selectByCode
          (postApiLinks urlParses random₂ now₂
            (postApiLinks urlParses random₁ now₁ db ⟨some url₁, some code⟩).2
            ⟨some url₂, some code⟩).2 code =
        [{ toRow := newRow code url₁ now₁, id := db.length }]) := by
  have hfirst := postApiLinks_explicit urlParses random₁ now₁ db url₁ code hurl₁ hparse₁ hcode
  have hpresent : selectByCode (tryInsert db code url₁ now₁).2 code ≠ [] := by
    by_cases h : selectByCode db code = []
    · rw [tryInsert_absent db code url₁ now₁ h]
      show selectByCode (db ++ [some (newRow code url₁ now₁)]) code ≠ []
      rw [selectByCode_append_some, h]
      simp [newRow]
    · rw [tryInsert_present db code url₁ now₁ h]
      exact h
  have hsecond : postApiLinks urlParses random₂ now₂ (tryInsert db code url₁ now₁).2
      ⟨some url₂, some code⟩ =
        (⟨409, .json_error "Code already exists"⟩, (tryInsert db code url₁ now₁).2) := by
    rw [postApiLinks_explicit urlParses random₂ now₂ _ url₂ code hurl₂ hparse₂ hcode]
    exact tryInsert_present _ code url₂ now₂ hpresent
  rw [hfirst, hsecond]
  refine ⟨fun h => tryInsert_present db code url₁ now₁ h, rfl, ?_, ?_⟩
  · rintro ⟨_, h2⟩
    exact absurd h2 (show ¬ (409 : Nat) = 201 by decide)
  · intro h
    rw [tryInsert_absent db code url₁ now₁ h]
    refine ⟨rfl, ?_⟩
    show selectByCode (db ++ [some (newRow code url₁ now₁)]) code = _
    rw [selectByCode_append_some, h]
    simp [newRow]

/-- Witness of C8 at the empty table and the code `abc123`. -/
theorem create_twice_witness :
    postApiLinks exampleUrlParses (fun _ => 0) 2
        (postApiLinks exampleUrlParses (fun _ => 0) 1 []
          ⟨some "https://example.com", some "abc123"⟩).2
        ⟨some "https://example.com", some "abc123"⟩ =
      (⟨409, .json_error "Code already exists"⟩,
        (postApiLinks exampleUrlParses (fun _ => 0) 1 []
          ⟨some "https://example.com", some "abc123"⟩).2) :=
  (create_twice exampleUrlParses (fun _ => 0) (fun _ => 0) 1 2 []
    "https://example.com" "https://example.com" "abc123"
    (by decide) (by decide) (by decide) (by decide) (by decide)).2.1

/-- C9: for every table, every valid URL and every code that `isValidCode`
accepts and no stored link has, create answers 201 with the new link and
appends it to the table, and the get of that code on the table it leaves
answers 200 with the same link, whose `code` is the requested one, whose
`target_url` is the URL, whose `total_clicks` is 0 and whose
`last_clicked_at` is null. -/
theorem create_then_get (urlParses : String → Bool) (random : Nat → ℚ) (now : Nat)
    (db : Store) (url code : String) (hurl : url ≠ "") (hparse : urlParses url = true)
    (hcode : isValidCode code = true) (habsent : selectByCode db code = []) :
    postApiLinks urlParses random now db ⟨some url, some code⟩ =
      (⟨201, .json_link { toRow := newRow code url now, id := db.length }⟩,
        db ++ [some (newRow code url now)]) ∧
    getApiLinksCode (postApiLinks urlParses random now db ⟨some url, some code⟩).2 code =
      (⟨200, .json_link { toRow := newRow code url now, id := db.length }⟩,
        (postApiLinks urlParses random now db ⟨some url, some code⟩).2) ∧
    (newRow code url now).code = code ∧ (newRow code url now).target_url = url ∧
    (newRow code url now).total_clicks = 0 ∧ (newRow code url now).last_clicked_at = none := by
  have hcreate : postApiLinks urlParses random now db ⟨some url, some code⟩ =
      (⟨201, .json_link { toRow := newRow code url now, id := db.length }⟩,
        db ++ [some (newRow code url now)]) := by
    rw [postApiLinks_explicit urlParses random now db url code hurl hparse hcode]
    exact tryInsert_absent db code url now habsent
  refine ⟨hcreate, ?_, rfl, rfl, rfl, rfl⟩
  rw [hcreate]
  unfold getApiLinksCode
  rw [selectByCode_append_some, habsent]
  simp [newRow]

/-- Witness of C9 at the empty table, the URL `https://example.com` and the
code `abc123`. -/
theorem create_then_get_witness :
    getApiLinksCode
        (postApiLinks exampleUrlParses (fun _ => 0) 3 []
          ⟨some "https://example.com", some "abc123"⟩).2 "abc123" =
      (⟨200, .json_link
          { toRow := newRow "abc123" "https://example.com" 3, id := ([] : Store).length }⟩,
        (postApiLinks exampleUrlParses (fun _ => 0) 3 []
          ⟨some "https://example.com", some "abc123"⟩).2) :=
  (create_then_get exampleUrlParses (fun _ => 0) 3 [] "https://example.com" "abc123"
    (by decide) (by decide) (by decide) (by decide)).2.1

/-! ## A resolve racing a remove -/

/-- C10, as the code has it: for every table, every code other than the path
words and the link `l` that the lookup by that code returns, one resolve and
one remove of that code end in one of three ways. Delete before the lookup:
resolve answers 404 `Code not found` and no counter advances. Delete after
the update: resolve redirects to the `target_url` of `l` and the update
advanced one counter. Delete between lookup and update: resolve redirects to
the `target_url` of `l` and the update advanced no counter. In every
interleaving, a counter advances only when resolve redirects, remove answers
204, and no link with the code is left. -/
theorem race_outcomes (db : Store) (now : Nat) (code : String) (l : Link)
    (hres : code ∉ ["api", "healthz", "code"])
    (h : (selectByCode db code).head? = some l) :
    ((race .removeFirst db now code).resolved = ⟨404, .text "Code not found"⟩ ∧
      (race .removeFirst db now code).increments = 0) ∧
    ((race .removeLast db now code).resolved = ⟨302, .redirect l.target_url⟩ ∧
      (race .removeLast db now code).increments = 1) ∧
    ((race .removeBetween db now code).resolved = ⟨302, .redirect l.target_url⟩ ∧
      (race .removeBetween db now code).increments = 0) ∧
    (∀ s : Schedule, ((race s db now code).increments ≠ 0 →
        (race s db now code).resolved = ⟨302, .redirect l.target_url⟩) ∧
      (race s db now code).removed = ⟨204, .empty⟩ ∧
      selectByCode (race s db now code).final code = []) := by
  obtain ⟨hl, hc⟩ := head_selectByCode db code l h
  have hne : selectByCode db code ≠ [] := by
    intro h0; rw [h0] at h; simp at h
  have hfound := getCodeLookup_found db code l hres h
  have hdel := deleteApiLinksCode_present db code hne
  have hgone := getCodeLookup_deleted db code hres
  have hupd : selectByCode (updateClicks db l.id now).2 code ≠ [] := by
    intro h0
    have := head_selectByCode_updateClicks db now code l h
    rw [h0] at this; simp at this
  have hfirst : race .removeFirst db now code =
      ⟨⟨404, .text "Code not found"⟩, 0, ⟨204, .empty⟩, (deleteByCode db code).2⟩ := by
    simp only [race, hdel, hgone, finishResolve]
  have hlast : race .removeLast db now code =
      ⟨⟨302, .redirect l.target_url⟩, 1, ⟨204, .empty⟩,
        (deleteByCode (updateClicks db l.id now).2 code).2⟩ := by
    simp only [race, hfound, finishResolve, getCodeUpdate,
      updateClicks_count_of_mem db now l hl, deleteApiLinksCode_present _ code hupd]
  have hbetween : race .removeBetween db now code =
      ⟨⟨302, .redirect l.target_url⟩, 0, ⟨204, .empty⟩,
        (updateClicks (deleteByCode db code).2 l.id now).2⟩ := by
    simp only [race, hfound, hdel, finishResolve, getCodeUpdate,
      updateClicks_count_deleted db now code l hl hc]
  have hgoneUpd : selectByCode (updateClicks (deleteByCode db code).2 l.id now).2 code = [] := by
    rw [selectByCode_updateClicks, selectByCode_deleteByCode]; rfl
  refine ⟨by rw [hfirst]; exact ⟨rfl, rfl⟩, by rw [hlast]; exact ⟨rfl, rfl⟩,
    by rw [hbetween]; exact ⟨rfl, rfl⟩, ?_⟩
  intro s
  cases s with
  | removeFirst =>
    rw [hfirst]
    exact ⟨fun hx => absurd rfl hx, rfl, selectByCode_deleteByCode db code⟩
  | removeBetween =>
    rw [hbetween]
    exact ⟨fun hx => absurd rfl hx, rfl, hgoneUpd⟩
  | removeLast =>
    rw [hlast]
    exact ⟨fun _ => rfl, rfl, selectByCode_deleteByCode _ code⟩

/-- Witness of C10 (amended) at a table holding one link, with the code
`abcdef`. -/
theorem race_outcomes_witness :
    (race .removeBetween [some (newRow "abcdef" "https://example.com" 0)] 7 "abcdef").resolved =
      ⟨302, .redirect "https://example.com"⟩ ∧
    (race .removeBetween [some (newRow "abcdef" "https://example.com" 0)] 7 "abcdef").increments =
      0 :=
  (race_outcomes [some (newRow "abcdef" "https://example.com" 0)] 7 "abcdef"
    { toRow := newRow "abcdef" "https://example.com" 0, id := 0 }
    (by decide) (by decide)).2.2.1

/-- C10 fails as stated. With one link stored under `abcdef` and the delete
falling between the lookup and the update of resolve, resolve answers with
the redirect to the target URL while its update changes no row, so that no
increment is recorded; remove answers 204 and the row is gone. And with one
link stored under the path word `healthz` and the delete falling last,
resolve answers 404 `Not found` while the link is still there. -/
theorem race_counterexample :
    race .removeBetween [some (newRow "abcdef" "https://example.com" 0)] 7 "abcdef" =
      ⟨⟨302, .redirect "https://example.com"⟩, 0, ⟨204, .empty⟩, [none]⟩ ∧
    race .removeLast [some (newRow "healthz" "https://example.com" 0)] 7 "healthz" =
      ⟨⟨404, .text "Not found"⟩, 0, ⟨204, .empty⟩, [none]⟩ := by
  decide

end TinyLink
